import Mathlib

/-!
Verification development for the pubmedTool repository.

The embedding below models the core of src/src/pubmedtool/__init__.py:
the method extract_non_academic_authors (record parsing and assembly),
the private helper __find_non_academic_authors (affiliation classification,
name building and e-mail extraction), and the e-mail cell of write_to_csv.

XML trees produced by xml.etree.ElementTree are modelled by the Element
type: a tag, an optional text and a list of children.  Element.find and
Element.findall search direct children, as in the Python library.  A raw
payload is modelled at the decode boundary: it either decodes to a tree
or it does not (ET.fromstring raising ParseError).  Python exceptions
raised by the translated code (AttributeError from calling a method or
reading .text on None, TypeError from the operator in on None) are
modelled by the Except monad with the PyErr error type.
-/

namespace PubMedTool

inductive Element where
  | mk (tag : String) (text : Option String) (children : List Element)

def Element.tag : Element → String
  | .mk t _ _ => t

def Element.text : Element → Option String
  | .mk _ x _ => x

def Element.children : Element → List Element
  | .mk _ _ c => c

/-- Model of ElementTree Element.find: first direct child with the tag. -/
def find (tag : String) (e : Element) : Option Element :=
  e.children.find? (fun c => c.tag == tag)

/-- Model of ElementTree Element.findall: all direct children with the tag. -/
def findall (tag : String) (e : Element) : List Element :=
  e.children.filter (fun c => c.tag == tag)

/-- Python exceptions that the translated code can raise. -/
inductive PyErr where
  | parseError
  | attrError
  | typeError
deriving DecidableEq

/-- The author_data dict built by __find_non_academic_authors: its three
keys are always assigned together. -/
structure AuthorRecord where
  name : String
  affiliation : String
  email : List String
deriving DecidableEq

/-- The details dict built by extract_non_academic_authors for one
retained article.  PMID text and title text may be Python None. -/
structure Details where
  id : Option String
  date : String
  title : Option String
  authors : AuthorRecord
deriving DecidableEq

/-- A raw payload at the decode boundary: either it is not well-formed
XML at all, or it decodes to a root element. -/
inductive Payload where
  | malformed
  | wellFormed (root : Element)

/-- Model of xml.etree.ElementTree.fromstring: a malformed payload
raises ParseError, a well-formed one yields the root element. -/
def fromstring (p : Payload) : Except PyErr Element :=
  match p with
  | .malformed => .error .parseError
  | .wellFormed root => .ok root

/-- Python str(x) for x an optional string, as used inside f-strings:
None renders as the literal text None. -/
def pystr : Option String → String
  | some s => s
  | none => "None"

/-- Prefix test on character lists, for the substring operator. -/
def isPrefixOfChars : List Char → List Char → Bool
  | [], _ => true
  | _ :: _, [] => false
  | a :: as, b :: bs => a == b && isPrefixOfChars as bs

/-- Containment of needle in hay as contiguous characters. -/
def containsSub (needle : List Char) : List Char → Bool
  | [] => isPrefixOfChars needle []
  | c :: rest => isPrefixOfChars needle (c :: rest) || containsSub needle rest

/-- Model of the Python operator needle in hay on strings. -/
def strContains (hay needle : String) : Bool :=
  containsSub needle.data hay.data

/-- The fixed keyword denylist of __find_non_academic_authors. -/
def denylist : List String :=
  ["University", "labs", "Institute", "College", "School"]

/-! ### The e-mail regular expression

The source applies re.findall with the regular expression
[a-zA-Z0-9._%+-]+ at-sign [a-zA-Z0-9.-]+ dot [a-zA-Z]\x7b2,\x7d
to the affiliation text.  The three character classes are isLocalChar,
isDomainChar and isTldChar.  The Python engine anchored at a position
behaves as follows: the first plus-quantifier consumes the maximal run
of local characters (shorter takes cannot be followed by the at-sign,
which is not a local character); after the at-sign the second
plus-quantifier consumes domain characters and backtracks from the
longest take downwards until a literal dot followed by at least two
letters fits; the final quantifier greedily takes the maximal letter
run.  findall scans positions left to right and resumes after each
match.  bestDotSplit performs the backtracking search for the domain
take, matchEmailAt attempts a match anchored at the head of the list,
and scanEmailsAux performs the scan; since every match consumes at
least one character, a fuel equal to the length of the list suffices
(theorem scanEmailsAux_fuel_irrel below).
-/

def isLocalChar (c : Char) : Bool :=
  c.isAlphanum || c == '.' || c == '_' || c == '%' || c == '+' || c == '-'

def isDomainChar (c : Char) : Bool :=
  c.isAlphanum || c == '.' || c == '-'

def isTldChar (c : Char) : Bool :=
  c.isAlpha

/-- Backtracking search for the largest take k of the domain run such
that position k holds a dot followed by at least two letters. -/
def bestDotSplit (dom : List Char) : Nat → Option Nat
  | 0 => none
  | j + 1 =>
    match dom.drop (j + 1) with
    | '.' :: tail =>
      if 2 ≤ (tail.takeWhile isTldChar).length then some (j + 1)
      else bestDotSplit dom j
    | _ => bestDotSplit dom j

/-- Attempt to match the e-mail pattern anchored at the head of l,
returning the matched characters and the remainder of the list. -/
def matchEmailAt (l : List Char) : Option (List Char × List Char) :=
  match l.dropWhile isLocalChar with
  | '@' :: r2 =>
    if l.takeWhile isLocalChar = [] then none
    else
      match bestDotSplit (r2.takeWhile isDomainChar)
          ((r2.takeWhile isDomainChar).length - 1) with
      | some k =>
        some (l.takeWhile isLocalChar ++ '@' ::
                ((r2.takeWhile isDomainChar).take k ++ '.' ::
                  ((r2.takeWhile isDomainChar).drop (k + 1)).takeWhile isTldChar),
              ((r2.takeWhile isDomainChar).drop (k + 1)).dropWhile isTldChar ++
                r2.dropWhile isDomainChar)
      | none => none
  | _ => none

/-- Left-to-right scan collecting non-overlapping matches, with fuel. -/
def scanEmailsAux : Nat → List Char → List (List Char)
  | 0, _ => []
  | _ + 1, [] => []
  | fuel + 1, c :: rest =>
    match matchEmailAt (c :: rest) with
    | some (m, r) => m :: scanEmailsAux fuel r
    | none => scanEmailsAux fuel rest

/-- Model of re.findall for the e-mail pattern over a character list. -/
def scanEmails (l : List Char) : List (List Char) :=
  scanEmailsAux l.length l

/-- The list of e-mail matches found in an affiliation string. -/
def findallEmails (t : String) : List String :=
  (scanEmails t.data).map (fun m => String.mk m)

/-- The email field of author_data: the matches if any, else n/a. -/
def emailField (t : String) : List String :=
  if findallEmails t = [] then ["n/a"] else findallEmails t

/-- The strings ms occur in l in this order as non-overlapping
contiguous runs. -/
def occursInOrder : List (List Char) → List Char → Prop
  | [], _ => True
  | m :: ms, l => ∃ g r, l = g ++ m ++ r ∧ occursInOrder ms r

/-- Shape of an e-mail match, written from the specification: a
non-empty local part of local characters, an at-sign, a non-empty
domain of domain characters, a dot, and a final label of at least two
letters. -/
def emailShape (m : List Char) : Prop :=
  ∃ loc dom tld, m = loc ++ '@' :: (dom ++ '.' :: tld) ∧
    loc ≠ [] ∧ (∀ c ∈ loc, isLocalChar c) ∧
    dom ≠ [] ∧ (∀ c ∈ dom, isDomainChar c) ∧
    2 ≤ tld.length ∧ (∀ c ∈ tld, isTldChar c)

/-! ### The classifier and the extraction pipeline -/

/-- One iteration of the author loop of __find_non_academic_authors:
skip an author without AffiliationInfo; from a present AffiliationInfo,
reading .text of a missing Affiliation child raises AttributeError and
the operator in on a None text raises TypeError; an affiliation
containing a denylist keyword is skipped; otherwise the author_data
dict is overwritten with name, affiliation and email, where reading
.text of a missing ForeName or LastName raises AttributeError. -/
def classify (author : Element) : Except PyErr (Option AuthorRecord) :=
  match find "AffiliationInfo" author with
  | none => .ok none
  | some affInfo =>
    match find "Affiliation" affInfo with
    | none => .error .attrError
    | some affEl =>
      match affEl.text with
      | none => .error .typeError
      | some t =>
        if denylist.all (fun k => !strContains t k) then
          match find "ForeName" author, find "LastName" author with
          | some fnEl, some lnEl =>
            .ok (some ⟨pystr fnEl.text ++ " " ++ pystr lnEl.text, t, emailField t⟩)
          | _, _ => .error .attrError
        else
          .ok none

/-- Whether an author overwrites the author_data dict. -/
def classifyHit (a : Element) : Bool :=
  match classify a with
  | .ok (some _) => true
  | _ => false

/-- The author loop of __find_non_academic_authors over the Author
children, threading the single author_data accumulator. -/
def find_authors_loop (acc : Option AuthorRecord) :
    List Element → Except PyErr (Option AuthorRecord)
  | [] => .ok acc
  | a :: rest =>
    match classify a with
    | .error e => .error e
    | .ok (some r) => find_authors_loop (some r) rest
    | .ok none => find_authors_loop acc rest

/-- Model of __find_non_academic_authors: calling findall on a missing
AuthorList (Python None) raises AttributeError. -/
def find_non_academic_authors : Option Element → Except PyErr (Option AuthorRecord)
  | none => .error .attrError
  | some authors => find_authors_loop none (findall "Author" authors)

/-- The per-article body of extract_non_academic_authors.  Reading
.text or calling .find on the result of a failed find raises
AttributeError.  The title is read before the author list is
processed, as in the source. -/
def processArticle (article : Element) : Except PyErr (Option Details) :=
  match find "MedlineCitation" article with
  | none => .error .attrError
  | some mc =>
    match find "PMID" mc with
    | none => .error .attrError
    | some pmidEl =>
      match find "DateRevised" mc with
      | none => .error .attrError
      | some dateEl =>
        match find "Year" dateEl, find "Month" dateEl, find "Day" dateEl with
        | some yEl, some moEl, some dEl =>
          match find "Article" mc with
          | none => .error .attrError
          | some artEl =>
            match find "ArticleTitle" artEl with
            | none => .error .attrError
            | some titleEl =>
              match find_non_academic_authors (find "AuthorList" artEl) with
              | .error e => .error e
              | .ok none => .ok none
              | .ok (some rec) =>
                .ok (some ⟨pmidEl.text,
                  pystr yEl.text ++ "-" ++ pystr moEl.text ++ "-" ++ pystr dEl.text,
                  titleEl.text, rec⟩)
        | _, _, _ => .error .attrError

/-- The contribution of one article node to the assembled output. -/
def articleOutput (a : Element) : Option Details :=
  match processArticle a with
  | .ok (some d) => some d
  | _ => none

/-- The authors of an article that overwrite the author_data dict,
in document order. -/
def qualifyingAuthors (a : Element) : List Element :=
  match find "MedlineCitation" a with
  | none => []
  | some mc =>
    match find "Article" mc with
    | none => []
    | some artEl =>
      match find "AuthorList" artEl with
      | none => []
      | some al => (findall "Author" al).filter classifyHit

/-- The article loop of extract_non_academic_authors, appending the
details of each retained article. -/
def extract_loop (acc : List Details) :
    List Element → Except PyErr (List Details)
  | [] => .ok acc
  | a :: rest =>
    match processArticle a with
    | .error e => .error e
    | .ok (some d) => extract_loop (acc ++ [d]) rest
    | .ok none => extract_loop acc rest

/-- Model of extract_non_academic_authors: decode the payload, then
process the PubmedArticle children of the root in order. -/
def extract_non_academic_authors (papers : Payload) : Except PyErr (List Details) :=
  match fromstring papers with
  | .error e => .error e
  | .ok root => extract_loop [] (findall "PubmedArticle" root)

/-- The Author Email cell of write_to_csv: the comma join of the email
list, or the empty string when the list is empty. -/
def csvEmailCell (es : List String) : String :=
  if es = [] then "" else String.intercalate ", " es

/-! ### Concrete fixtures for counterexamples and witnesses -/

/-- Leaf element carrying text. -/
def leafEl (tag t : String) : Element :=
  Element.mk tag (some t) []

/-- An AffiliationInfo node wrapping an Affiliation text. -/
def affInfoEl (t : String) : Element :=
  Element.mk "AffiliationInfo" none [leafEl "Affiliation" t]

/-- An author with affiliation, fore name and last name. -/
def authorEl (fore last aff : String) : Element :=
  Element.mk "Author" none
    [affInfoEl aff, leafEl "ForeName" fore, leafEl "LastName" last]

def wIndustryAuthor : Element :=
  authorEl "Jane" "Doe" "Acme Biotech Inc, jane@acme.com"

def wAcademicAuthor : Element :=
  authorEl "John" "Doe" "Stanford University, jdoe@stanford.edu"

def wTwoEmailAuthor : Element :=
  authorEl "Ann" "Lee" "Acme Pharma, a@x.com and b@y.org"

/-- An author with affiliation text present and no keyword, but with no
ForeName child. -/
def cAuthorNoForeName : Element :=
  Element.mk "Author" none [affInfoEl "Acme Corp", leafEl "LastName" "Doe"]

/-- An author with affiliation text present and no keyword, but with no
LastName child. -/
def cAuthorNoLastName : Element :=
  Element.mk "Author" none [affInfoEl "Beta Biotech", leafEl "ForeName" "Mark"]

/-- An author whose ForeName node is present but has no text. -/
def cAuthorNoneText : Element :=
  Element.mk "Author" none
    [affInfoEl "Gamma Therapeutics", Element.mk "ForeName" none [],
     leafEl "LastName" "Doe"]

/-- An author with no AffiliationInfo child at all. -/
def wBareAuthor : Element :=
  Element.mk "Author" none [leafEl "ForeName" "X", leafEl "LastName" "Y"]

/-- A complete article node. -/
def articleEl (pmid y mo d title : String) (authors : List Element) : Element :=
  Element.mk "PubmedArticle" none
    [Element.mk "MedlineCitation" none
      [leafEl "PMID" pmid,
       Element.mk "DateRevised" none
         [leafEl "Year" y, leafEl "Month" mo, leafEl "Day" d],
       Element.mk "Article" none
         [leafEl "ArticleTitle" title,
          Element.mk "AuthorList" none authors]]]

def wArticleAcad : Element := articleEl "1" "2024" "01" "02" "T1" [wAcademicAuthor]

def wArticleInd : Element := articleEl "2" "2024" "03" "04" "T2" [wIndustryAuthor]

/-- A root with one all-academic article and one industry article. -/
def wRootMixed : Element :=
  Element.mk "PubmedArticleSet" none [wArticleAcad, wArticleInd]

/-- The record assembled from the industry article of wRootMixed. -/
def wDetailsInd : Details :=
  ⟨some "2", "2024-03-04", some "T2",
   ⟨"Jane Doe", "Acme Biotech Inc, jane@acme.com", ["jane@acme.com"]⟩⟩

/-- An author list with two qualifying authors. -/
def wAuthorListTwoInd : Element :=
  Element.mk "AuthorList" none [wIndustryAuthor, wTwoEmailAuthor]

/-- The record of the second (last) qualifying author. -/
def wRecordTwoEmail : AuthorRecord :=
  ⟨"Ann Lee", "Acme Pharma, a@x.com and b@y.org", ["a@x.com", "b@y.org"]⟩

/-- An Article node with an AuthorList but no ArticleTitle child. -/
def cArtNoTitleInner : Element :=
  Element.mk "Article" none [Element.mk "AuthorList" none [wIndustryAuthor]]

def cDateNoTitle : Element :=
  Element.mk "DateRevised" none
    [leafEl "Year" "2023", leafEl "Month" "05", leafEl "Day" "06"]

def cMCNoTitle : Element :=
  Element.mk "MedlineCitation" none [leafEl "PMID" "9", cDateNoTitle, cArtNoTitleInner]

/-- An article node whose Article child has an AuthorList but no
ArticleTitle child. -/
def cArticleNoTitle : Element :=
  Element.mk "PubmedArticle" none [cMCNoTitle]

/-- A well-formed root whose first article lacks a title and whose
second article is complete. -/
def cRootNoTitle : Element :=
  Element.mk "PubmedArticleSet" none [cArticleNoTitle, wArticleInd]

/-- A well-formed root holding an article with no MedlineCitation. -/
def cRootEmptyArticle : Element :=
  Element.mk "PubmedArticleSet" none [Element.mk "PubmedArticle" none []]

/-! ### Lemmas about the e-mail matcher -/

theorem bestDotSplit_spec (dom : List Char) :
    ∀ n k, bestDotSplit dom n = some k →
      1 ≤ k ∧ ∃ tail, dom.drop k = '.' :: tail ∧
        2 ≤ (tail.takeWhile isTldChar).length := by
  intro n
  induction n with
  | zero => intro k h; simp [bestDotSplit] at h
  | succ j ih =>
    intro k h
    unfold bestDotSplit at h
    split at h
    · next tail hd =>
      split at h
      · next hlen =>
        cases h
        exact ⟨Nat.succ_le_succ (Nat.zero_le j), tail, hd, hlen⟩
      · exact ih k h
    · exact ih k h

theorem matchEmailAt_eq (l m r : List Char) (h : matchEmailAt l = some (m, r)) :
    l = m ++ r ∧ m ≠ [] := by
  unfold matchEmailAt at h
  split at h
  · next r2 hdw =>
    split at h
    · simp at h
    · next hloc =>
      split at h
      · next k hbs =>
        obtain ⟨hk1, tail, hdrop, hlen⟩ := bestDotSplit_spec _ _ _ hbs
        have hdrop1 : (r2.takeWhile isDomainChar).drop (k + 1) = tail := by
          have : (r2.takeWhile isDomainChar).drop (k + 1) =
              ((r2.takeWhile isDomainChar).drop k).drop 1 := by
            rw [List.drop_drop]
          rw [this, hdrop]
          rfl
        cases h
        refine ⟨?_, ?_⟩
        · have hl : l = l.takeWhile isLocalChar ++ ('@' :: r2) := by
            conv_lhs => rw [← List.takeWhile_append_dropWhile (p := isLocalChar) (l := l)]
            rw [hdw]
          have hr2 : r2 = r2.takeWhile isDomainChar ++ r2.dropWhile isDomainChar :=
            (List.takeWhile_append_dropWhile _ _).symm
          have hdom : r2.takeWhile isDomainChar =
              (r2.takeWhile isDomainChar).take k ++ ('.' :: tail) := by
            conv_lhs => rw [← List.take_append_drop k (r2.takeWhile isDomainChar)]
            rw [hdrop]
          have htail : tail = tail.takeWhile isTldChar ++ tail.dropWhile isTldChar :=
            (List.takeWhile_append_dropWhile _ _).symm
          rw [hdrop1]
          conv_lhs => rw [hl, hr2, hdom]
          simp
          rw [← List.append_assoc, ← htail]
        · rw [hdrop1]
          intro hnil
          have : l.takeWhile isLocalChar = [] := by
            cases hx : l.takeWhile isLocalChar with
            | nil => rfl
            | cons a as => rw [hx] at hnil; simp at hnil
          exact hloc this
      · simp at h
  · simp at h

theorem matchEmailAt_shape (l m r : List Char) (h : matchEmailAt l = some (m, r)) :
    emailShape m := by
  unfold matchEmailAt at h
  split at h
  · next r2 hdw =>
    split at h
    · simp at h
    · next hloc =>
      split at h
      · next k hbs =>
        obtain ⟨hk1, tail, hdrop, hlen⟩ := bestDotSplit_spec _ _ _ hbs
        have hdrop1 : (r2.takeWhile isDomainChar).drop (k + 1) = tail := by
          have h2 : (r2.takeWhile isDomainChar).drop (k + 1) =
              ((r2.takeWhile isDomainChar).drop k).drop 1 := by
            rw [List.drop_drop]
          rw [h2, hdrop]
          rfl
        cases h
        refine ⟨l.takeWhile isLocalChar, (r2.takeWhile isDomainChar).take k,
          ((r2.takeWhile isDomainChar).drop (k + 1)).takeWhile isTldChar,
          rfl, hloc, ?_, ?_, ?_, ?_, ?_⟩
        · intro c hc
          exact List.mem_takeWhile_imp hc
        · have hklt : k < (r2.takeWhile isDomainChar).length := by
            by_contra hle
            push_neg at hle
            rw [List.drop_eq_nil_of_le hle] at hdrop
            simp at hdrop
          intro hnil
          rw [List.take_eq_nil_iff] at hnil
          rcases hnil with h0 | h0
          · omega
          · rw [h0] at hklt
            simp at hklt
        · intro c hc
          exact List.mem_takeWhile_imp (List.take_subset _ _ hc)
        · rw [hdrop1]
          exact hlen
        · intro c hc
          exact List.mem_takeWhile_imp hc
      · simp at h
  · simp at h

theorem occursInOrder_cons (ms : List (List Char)) (l : List Char) (c : Char)
    (h : occursInOrder ms l) : occursInOrder ms (c :: l) := by
  cases ms with
  | nil => trivial
  | cons m ms =>
    obtain ⟨g, r, hgr, hrest⟩ := h
    exact ⟨c :: g, r, by rw [hgr]; rfl, hrest⟩

theorem scanEmailsAux_occurs :
    ∀ fuel l, occursInOrder (scanEmailsAux fuel l) l := by
  intro fuel
  induction fuel with
  | zero => intro l; simp [scanEmailsAux, occursInOrder]
  | succ j ih =>
    intro l
    cases l with
    | nil => simp [scanEmailsAux, occursInOrder]
    | cons c rest =>
      unfold scanEmailsAux
      cases hm : matchEmailAt (c :: rest) with
      | none => exact occursInOrder_cons _ _ _ (ih rest)
      | some p =>
        obtain ⟨m, r⟩ := p
        obtain ⟨heq, -⟩ := matchEmailAt_eq _ _ _ hm
        exact ⟨[], r, by rw [heq]; rfl, ih r⟩

theorem scanEmailsAux_shape :
    ∀ fuel l m, m ∈ scanEmailsAux fuel l → emailShape m := by
  intro fuel
  induction fuel with
  | zero => intro l m h; simp [scanEmailsAux] at h
  | succ j ih =>
    intro l m h
    cases l with
    | nil => simp [scanEmailsAux] at h
    | cons c rest =>
      unfold scanEmailsAux at h
      cases hm : matchEmailAt (c :: rest) with
      | none => rw [hm] at h; exact ih rest m h
      | some p =>
        obtain ⟨m0, r⟩ := p
        rw [hm] at h
        rcases List.mem_cons.mp h with h0 | h0
        · subst h0
          exact matchEmailAt_shape _ _ _ hm
        · exact ih r m h0

theorem scanEmails_occurs (l : List Char) : occursInOrder (scanEmails l) l :=
  scanEmailsAux_occurs l.length l

theorem scanEmails_shape (l : List Char) (m : List Char) (h : m ∈ scanEmails l) :
    emailShape m :=
  scanEmailsAux_shape l.length l m h

theorem scanEmailsAux_fuel_irrel :
    ∀ fuel fuel2 l, l.length ≤ fuel → l.length ≤ fuel2 →
      scanEmailsAux fuel l = scanEmailsAux fuel2 l := by
  intro fuel
  induction fuel with
  | zero =>
    intro fuel2 l h1 h2
    have : l = [] := List.length_eq_zero.mp (Nat.le_zero.mp h1)
    subst this
    cases fuel2 <;> simp [scanEmailsAux]
  | succ j ih =>
    intro fuel2 l h1 h2
    cases l with
    | nil => cases fuel2 <;> simp [scanEmailsAux]
    | cons c rest =>
      cases fuel2 with
      | zero => simp at h2
      | succ j2 =>
        unfold scanEmailsAux
        cases hm : matchEmailAt (c :: rest) with
        | none =>
          simp only []
          exact ih j2 rest (by simpa using h1) (by simpa using h2)
        | some p =>
          obtain ⟨m, r⟩ := p
          obtain ⟨heq, hne⟩ := matchEmailAt_eq _ _ _ hm
          have hr : r.length + 1 ≤ (c :: rest).length := by
            rw [heq, List.length_append]
            have : 1 ≤ m.length := by
              cases m with
              | nil => exact absurd rfl hne
              | cons a as => simp
            omega
          simp only []
          rw [ih j2 r (by simp at hr h1 ⊢; omega) (by simp at hr h2 ⊢; omega)]

/-! ### Lemmas about the classifier and the loops -/

theorem all_not_eq_not_any {α : Type} (p : α → Bool) (l : List α) :
    l.all (fun x => !p x) = !(l.any p) := by
  induction l with
  | nil => rfl
  | cons a as ih => simp [List.all_cons, List.any_cons, ih]

/-- Value of classify when all the accessed nodes are present. -/
theorem classify_of_nodes (a affInfo affEl fnEl lnEl : Element) (t : String)
    (h1 : find "AffiliationInfo" a = some affInfo)
    (h2 : find "Affiliation" affInfo = some affEl)
    (h3 : affEl.text = some t)
    (h4 : find "ForeName" a = some fnEl)
    (h5 : find "LastName" a = some lnEl) :
    classify a = if denylist.all (fun k => !strContains t k)
      then Except.ok (some ⟨pystr fnEl.text ++ " " ++ pystr lnEl.text, t, emailField t⟩)
      else Except.ok none := by
  simp only [classify, h1, h2, h3, h4, h5]

/-- A produced author record carries a non-empty email list. -/
theorem classify_email_ne_nil (a : Element) (r : AuthorRecord)
    (h : classify a = Except.ok (some r)) : r.email ≠ [] := by
  unfold classify at h
  split at h
  · simp at h
  · split at h
    · simp at h
    · split at h
      · simp at h
      · split at h
        · split at h
          · cases h
            show emailField _ ≠ []
            unfold emailField
            split
            · simp
            · next hne => exact hne
          · simp at h
        · simp at h

/-- Errors raised by classify are AttributeError or TypeError. -/
theorem classify_err (a : Element) (e : PyErr)
    (h : classify a = Except.error e) :
    e = PyErr.attrError ∨ e = PyErr.typeError := by
  unfold classify at h
  split at h
  · simp at h
  · split at h
    · cases h; exact Or.inl rfl
    · split at h
      · cases h; exact Or.inr rfl
      · split at h
        · split at h
          · simp at h
          · cases h; exact Or.inl rfl
        · simp at h

/-- Characterization of a successful author loop: either no author
overwrote the dict and the accumulator survives, or the result is the
record of the last author that overwrote it. -/
theorem find_authors_loop_ok :
    ∀ (l : List Element) (acc res : Option AuthorRecord),
      find_authors_loop acc l = Except.ok res →
      (l.filter classifyHit = [] ∧ res = acc) ∨
      (∃ aL r, (l.filter classifyHit).getLast? = some aL ∧
        classify aL = Except.ok (some r) ∧ res = some r) := by
  intro l
  induction l with
  | nil =>
    intro acc res h
    unfold find_authors_loop at h
    cases h
    exact Or.inl ⟨rfl, rfl⟩
  | cons a rest ih =>
    intro acc res h
    unfold find_authors_loop at h
    cases hc : classify a with
    | error e => rw [hc] at h; simp at h
    | ok o =>
      rw [hc] at h
      cases o with
      | some r =>
        have hhit : classifyHit a = true := by
          unfold classifyHit
          rw [hc]
        rcases ih (some r) res h with ⟨hfe, hres⟩ | ⟨aL, r', hlast, hcl, hres⟩
        · refine Or.inr ⟨a, r, ?_, hc, hres⟩
          rw [List.filter_cons_of_pos hhit, hfe]
          rfl
        · refine Or.inr ⟨aL, r', ?_, hcl, hres⟩
          rw [List.filter_cons_of_pos hhit]
          cases hf : rest.filter classifyHit with
          | nil => rw [hf] at hlast; simp at hlast
          | cons b bs =>
            rw [hf] at hlast
            rw [List.getLast?_cons_cons]
            exact hlast
      | none =>
        have hhit : classifyHit a = false := by
          unfold classifyHit
          rw [hc]
        rcases ih acc res h with ⟨hfe, hres⟩ | ⟨aL, r', hlast, hcl, hres⟩
        · exact Or.inl ⟨by rw [List.filter_cons_of_neg (by simp [hhit]), hfe], hres⟩
        · exact Or.inr ⟨aL, r', by
            rw [List.filter_cons_of_neg (by simp [hhit])]; exact hlast, hcl, hres⟩

/-- Errors raised by the author loop come from classify. -/
theorem find_authors_loop_err :
    ∀ (l : List Element) (acc : Option AuthorRecord) (e : PyErr),
      find_authors_loop acc l = Except.error e →
      e = PyErr.attrError ∨ e = PyErr.typeError := by
  intro l
  induction l with
  | nil => intro acc e h; simp [find_authors_loop] at h
  | cons a rest ih =>
    intro acc e h
    unfold find_authors_loop at h
    cases hc : classify a with
    | error e0 =>
      rw [hc] at h
      cases h
      exact classify_err a e hc
    | ok o =>
      rw [hc] at h
      cases o with
      | some r => exact ih (some r) e h
      | none => exact ih acc e h

/-- Inversion of a successful processArticle run. -/
theorem processArticle_ok (a : Element) (v : Option Details)
    (h : processArticle a = Except.ok v) :
    ∃ mc artEl al res,
      find "MedlineCitation" a = some mc ∧
      find "Article" mc = some artEl ∧
      find "AuthorList" artEl = some al ∧
      find_authors_loop none (findall "Author" al) = Except.ok res ∧
      ((res = none ∧ v = none) ∨
        (∃ r d, res = some r ∧ v = some d ∧ d.authors = r)) := by
  unfold processArticle at h
  split at h
  · simp at h
  · next mc hmc =>
    split at h
    · simp at h
    · next pmidEl hpmid =>
      split at h
      · simp at h
      · next dateEl hdate =>
        split at h
        · next yEl moEl dEl hy hmo hd =>
          split at h
          · simp at h
          · next artEl hart =>
            split at h
            · simp at h
            · next titleEl htitle =>
              cases hal : find "AuthorList" artEl with
              | none =>
                rw [hal] at h
                simp [find_non_academic_authors] at h
              | some al =>
                rw [hal] at h
                simp only [find_non_academic_authors] at h
                cases hres : find_authors_loop none (findall "Author" al) with
                | error e => rw [hres] at h; simp at h
                | ok res =>
                  rw [hres] at h
                  refine ⟨mc, artEl, al, res, hmc, hart, hal, hres, ?_⟩
                  cases res with
                  | none => cases h; exact Or.inl ⟨rfl, rfl⟩
                  | some r =>
                    cases h
                    exact Or.inr ⟨r, _, rfl, rfl, rfl⟩
        · simp at h

/-- Errors raised by processArticle are AttributeError or TypeError. -/
theorem processArticle_err (a : Element) (e : PyErr)
    (h : processArticle a = Except.error e) :
    e = PyErr.attrError ∨ e = PyErr.typeError := by
  unfold processArticle at h
  split at h
  · cases h; exact Or.inl rfl
  · split at h
    · cases h; exact Or.inl rfl
    · split at h
      · cases h; exact Or.inl rfl
      · split at h
        · next artEl0 =>
          split at h
          · cases h; exact Or.inl rfl
          · next artEl hart =>
            split at h
            · cases h; exact Or.inl rfl
            · cases hal : find "AuthorList" artEl with
              | none =>
                rw [hal] at h
                simp only [find_non_academic_authors] at h
                cases h
                exact Or.inl rfl
              | some al =>
                rw [hal] at h
                simp only [find_non_academic_authors] at h
                cases hres : find_authors_loop none (findall "Author" al) with
                | error e0 =>
                  rw [hres] at h
                  cases h
                  exact find_authors_loop_err _ _ _ hres
                | ok res =>
                  rw [hres] at h
                  cases res <;> simp at h
        · cases h; exact Or.inl rfl

/-- Characterization of a successful article loop: the output is the
accumulator followed by the per-article contributions in order, and
every article was processed without an exception. -/
theorem extract_loop_ok :
    ∀ (arts : List Element) (acc out : List Details),
      extract_loop acc arts = Except.ok out →
      out = acc ++ arts.filterMap articleOutput ∧
        ∀ a ∈ arts, ∃ v, processArticle a = Except.ok v := by
  intro arts
  induction arts with
  | nil =>
    intro acc out h
    unfold extract_loop at h
    cases h
    simp
  | cons a rest ih =>
    intro acc out h
    unfold extract_loop at h
    cases hp : processArticle a with
    | error e => rw [hp] at h; simp at h
    | ok v =>
      rw [hp] at h
      cases v with
      | some d =>
        obtain ⟨hout, hall⟩ := ih (acc ++ [d]) out h
        have hao : articleOutput a = some d := by
          unfold articleOutput
          rw [hp]
        constructor
        · rw [hout, List.filterMap_cons, hao]
          simp
        · intro b hb
          rcases List.mem_cons.mp hb with hb | hb
          · exact ⟨some d, by rw [hb]; exact hp⟩
          · exact hall b hb
      | none =>
        obtain ⟨hout, hall⟩ := ih acc out h
        have hao : articleOutput a = none := by
          unfold articleOutput
          rw [hp]
        constructor
        · rw [hout, List.filterMap_cons, hao]
        · intro b hb
          rcases List.mem_cons.mp hb with hb | hb
          · exact ⟨none, by rw [hb]; exact hp⟩
          · exact hall b hb

/-- Errors raised by the article loop come from processArticle. -/
theorem extract_loop_err :
    ∀ (arts : List Element) (acc : List Details) (e : PyErr),
      extract_loop acc arts = Except.error e →
      e = PyErr.attrError ∨ e = PyErr.typeError := by
  intro arts
  induction arts with
  | nil => intro acc e h; simp [extract_loop] at h
  | cons a rest ih =>
    intro acc e h
    unfold extract_loop at h
    cases hp : processArticle a with
    | error e0 =>
      rw [hp] at h
      cases h
      exact processArticle_err a e hp
    | ok v =>
      rw [hp] at h
      cases v with
      | some d => exact ih (acc ++ [d]) e h
      | none => exact ih acc e h

/-! ### Claim theorems -/

/-- C1 counterexample: the author cAuthorNoForeName has affiliation text
Acme Corp, which is present and contains none of the five keywords, yet
the classifier raises AttributeError (missing ForeName node) instead of
producing a non-academic AuthorRecord. -/
theorem classify_no_keyword_missing_forename_fails :
    (denylist.all fun k => !strContains "Acme Corp" k) = true ∧
    classify cAuthorNoForeName = Except.error PyErr.attrError :=
  ⟨rfl, rfl⟩

/-- C1 amended: for an author whose affiliation text is present and whose
ForeName and LastName nodes are also present, the classifier produces no
record iff the text contains one of the five case-sensitive keywords as a
substring, and an affiliation containing none of them yields a
non-academic AuthorRecord carrying that affiliation. -/
theorem classify_denylist_iff (a affInfo affEl fnEl lnEl : Element) (t : String)
    (h1 : find "AffiliationInfo" a = some affInfo)
    (h2 : find "Affiliation" affInfo = some affEl)
    (h3 : affEl.text = some t)
    (h4 : find "ForeName" a = some fnEl)
    (h5 : find "LastName" a = some lnEl) :
    (classify a = Except.ok none ↔ (denylist.any fun k => strContains t k) = true) ∧
    ((denylist.all fun k => !strContains t k) = true →
      ∃ r, classify a = Except.ok (some r) ∧ r.affiliation = t) := by
  have hc := classify_of_nodes a affInfo affEl fnEl lnEl t h1 h2 h3 h4 h5
  have hrel := all_not_eq_not_any (fun k => strContains t k) denylist
  cases hall : denylist.all (fun k => !strContains t k) with
  | true =>
    rw [hall] at hc hrel
    simp at hc
    have hany : (denylist.any fun k => strContains t k) = false := by
      cases hx : denylist.any (fun k => strContains t k) with
      | true => rw [hx] at hrel; simp at hrel
      | false => rfl
    refine ⟨?_, ?_⟩
    · rw [hc, hany]
      simp
    · intro _
      exact ⟨_, hc, rfl⟩
  | false =>
    rw [hall] at hc hrel
    simp at hc
    have hany : (denylist.any fun k => strContains t k) = true := by
      cases hx : denylist.any (fun k => strContains t k) with
      | true => rfl
      | false => rw [hx] at hrel; simp at hrel
    refine ⟨?_, ?_⟩
    · rw [hc, hany]
      simp
    · intro hcontra
      cases hcontra

/-- C1 witness: the concrete academic author is excluded. -/
theorem classify_denylist_iff_witness :
    classify wAcademicAuthor = Except.ok none :=
  (classify_denylist_iff wAcademicAuthor
    (affInfoEl "Stanford University, jdoe@stanford.edu")
    (leafEl "Affiliation" "Stanford University, jdoe@stanford.edu")
    (leafEl "ForeName" "John") (leafEl "LastName" "Doe")
    "Stanford University, jdoe@stanford.edu"
    rfl rfl rfl rfl rfl).1.mpr rfl

/-- C7 counterexample: an author with affiliation Beta Biotech and no
LastName node makes the classifier raise AttributeError instead of
contributing an empty name segment; and an author whose ForeName node is
present without text yields the literal segment None, not an empty
segment. -/
theorem classify_missing_name_counterexample :
    classify cAuthorNoLastName = Except.error PyErr.attrError ∧
    classify cAuthorNoneText =
      Except.ok (some ⟨"None Doe", "Gamma Therapeutics", ["n/a"]⟩) :=
  ⟨rfl, rfl⟩

/-- C7 amended: for a non-academic author the name field is the ForeName
text and the LastName text joined by a single space, where a present node
without text contributes the literal None; a missing ForeName or LastName
node instead raises AttributeError. -/
theorem classify_name_concatenation (a affInfo affEl : Element) (t : String)
    (h1 : find "AffiliationInfo" a = some affInfo)
    (h2 : find "Affiliation" affInfo = some affEl)
    (h3 : affEl.text = some t)
    (hk : (denylist.all fun k => !strContains t k) = true) :
    (∀ fnEl lnEl, find "ForeName" a = some fnEl → find "LastName" a = some lnEl →
      classify a = Except.ok (some ⟨pystr fnEl.text ++ " " ++ pystr lnEl.text, t,
        emailField t⟩)) ∧
    (find "ForeName" a = none → classify a = Except.error PyErr.attrError) ∧
    (∀ fnEl, find "ForeName" a = some fnEl → find "LastName" a = none →
      classify a = Except.error PyErr.attrError) := by
  refine ⟨?_, ?_, ?_⟩
  · intro fnEl lnEl h4 h5
    rw [classify_of_nodes a affInfo affEl fnEl lnEl t h1 h2 h3 h4 h5, if_pos hk]
  · intro h4
    simp only [classify, h1, h2, h3, h4, hk, if_true]
  · intro fnEl h4 h5
    simp only [classify, h1, h2, h3, h4, h5, hk, if_true]

/-- C7 witness: the concrete industry author gets the joined name. -/
theorem classify_name_concatenation_witness :
    classify wIndustryAuthor = Except.ok (some
      ⟨pystr (leafEl "ForeName" "Jane").text ++ " " ++
        pystr (leafEl "LastName" "Doe").text,
       "Acme Biotech Inc, jane@acme.com",
       emailField "Acme Biotech Inc, jane@acme.com"⟩) :=
  (classify_name_concatenation wIndustryAuthor
    (affInfoEl "Acme Biotech Inc, jane@acme.com")
    (leafEl "Affiliation" "Acme Biotech Inc, jane@acme.com")
    "Acme Biotech Inc, jane@acme.com"
    rfl rfl rfl rfl).1 (leafEl "ForeName" "Jane") (leafEl "LastName" "Doe") rfl rfl

/-- C8: an author node with no AffiliationInfo child is skipped: the
classifier returns no record without failing, and the author loop
proceeds over it leaving the accumulator unchanged, whatever the rest of
the author's content. -/
theorem classify_skip_no_affiliation (a : Element)
    (h : find "AffiliationInfo" a = none) :
    classify a = Except.ok none ∧
    ∀ acc rest, find_authors_loop acc (a :: rest) = find_authors_loop acc rest := by
  have hc : classify a = Except.ok none := by
    unfold classify
    rw [h]
  refine ⟨hc, ?_⟩
  intro acc rest
  simp only [find_authors_loop, hc]

/-- C8 witness: the concrete author without affiliation is skipped. -/
theorem classify_skip_no_affiliation_witness :
    classify wBareAuthor = Except.ok none ∧
    ∀ acc rest, find_authors_loop acc (wBareAuthor :: rest) =
      find_authors_loop acc rest :=
  classify_skip_no_affiliation wBareAuthor rfl

/-- C4: for a non-academic author the email field is the ordered list of
regular-expression matches over the affiliation text, or the single
placeholder n/a when there are no matches; every match has the e-mail
shape of the pattern and the matches occur in the text in order of
appearance as non-overlapping substrings. -/
theorem classify_email_extraction (a affInfo affEl fnEl lnEl : Element) (t : String)
    (h1 : find "AffiliationInfo" a = some affInfo)
    (h2 : find "Affiliation" affInfo = some affEl)
    (h3 : affEl.text = some t)
    (hk : (denylist.all fun k => !strContains t k) = true)
    (h4 : find "ForeName" a = some fnEl)
    (h5 : find "LastName" a = some lnEl) :
    ∃ r, classify a = Except.ok (some r) ∧
      r.email = (if findallEmails t = [] then ["n/a"] else findallEmails t) ∧
      (findallEmails t = [] → r.email = ["n/a"]) ∧
      (∀ m, m ∈ scanEmails t.data → emailShape m) ∧
      occursInOrder (scanEmails t.data) t.data := by
  refine ⟨⟨pystr fnEl.text ++ " " ++ pystr lnEl.text, t, emailField t⟩, ?_, rfl, ?_, ?_, ?_⟩
  · rw [classify_of_nodes a affInfo affEl fnEl lnEl t h1 h2 h3 h4 h5, if_pos hk]
  · intro hnil
    show emailField t = ["n/a"]
    unfold emailField
    rw [if_pos hnil]
  · intro m hm
    exact scanEmails_shape _ _ hm
  · exact scanEmails_occurs _

/-- C4 witness: two addresses are collected in order of appearance. -/
theorem classify_email_extraction_witness :
    (∃ r, classify wTwoEmailAuthor = Except.ok (some r) ∧
      r.email = (if findallEmails "Acme Pharma, a@x.com and b@y.org" = []
        then ["n/a"] else findallEmails "Acme Pharma, a@x.com and b@y.org") ∧
      (findallEmails "Acme Pharma, a@x.com and b@y.org" = [] →
        r.email = ["n/a"]) ∧
      (∀ m, m ∈ scanEmails ("Acme Pharma, a@x.com and b@y.org").data →
        emailShape m) ∧
      occursInOrder (scanEmails ("Acme Pharma, a@x.com and b@y.org").data)
        ("Acme Pharma, a@x.com and b@y.org").data) ∧
    findallEmails "Acme Pharma, a@x.com and b@y.org" = ["a@x.com", "b@y.org"] :=
  ⟨classify_email_extraction wTwoEmailAuthor
    (affInfoEl "Acme Pharma, a@x.com and b@y.org")
    (leafEl "Affiliation" "Acme Pharma, a@x.com and b@y.org")
    (leafEl "ForeName" "Ann") (leafEl "LastName" "Lee")
    "Acme Pharma, a@x.com and b@y.org" rfl rfl rfl rfl rfl rfl, rfl⟩

/-- C3: when the author loop of an article returns without an exception
and at least one author overwrote the author_data dict, the single
returned record is exactly the record of the last overwriting author in
document order; every earlier overwriting author's fields are gone. -/
theorem find_authors_last_qualifying (al : Element) (res : Option AuthorRecord)
    (h : find_non_academic_authors (some al) = Except.ok res)
    (hq : (findall "Author" al).filter classifyHit ≠ []) :
    ∃ aL r, ((findall "Author" al).filter classifyHit).getLast? = some aL ∧
      classify aL = Except.ok (some r) ∧ res = some r := by
  simp only [find_non_academic_authors] at h
  rcases find_authors_loop_ok _ _ _ h with ⟨hfe, -⟩ | hgood
  · exact absurd hfe hq
  · exact hgood

/-- C3 witness: with two qualifying authors the result is the record of
the second one. -/
theorem find_authors_last_qualifying_witness :
    ∃ aL r, ((findall "Author" wAuthorListTwoInd).filter classifyHit).getLast? =
        some aL ∧
      classify aL = Except.ok (some r) ∧
      (some wRecordTwoEmail : Option AuthorRecord) = some r :=
  find_authors_last_qualifying wAuthorListTwoInd (some wRecordTwoEmail) rfl
    (by simp [show (findall "Author" wAuthorListTwoInd).filter classifyHit =
      [wIndustryAuthor, wTwoEmailAuthor] from rfl])

/-- C9: a successful extraction yields exactly the per-article
contributions of the PubmedArticle nodes in their document order: the
retained articles keep their original relative order. -/
theorem extract_preserves_order (root : Element) (out : List Details)
    (h : extract_non_academic_authors (Payload.wellFormed root) = Except.ok out) :
    out = (findall "PubmedArticle" root).filterMap articleOutput := by
  have hx : extract_loop [] (findall "PubmedArticle" root) = Except.ok out := by
    simpa [extract_non_academic_authors, fromstring] using h
  simpa using (extract_loop_ok _ _ _ hx).1

/-- C9 witness at the concrete mixed root. -/
theorem extract_preserves_order_witness :
    [wDetailsInd] = (findall "PubmedArticle" wRootMixed).filterMap articleOutput :=
  extract_preserves_order wRootMixed [wDetailsInd] rfl

/-- C2: under a successful extraction, an article contributes a record to
the output iff its author list has at least one author that overwrites
the author_data dict; an article with exactly one such author is present
with that author's record. -/
theorem extract_retention (root : Element) (out : List Details) (a : Element)
    (h : extract_non_academic_authors (Payload.wellFormed root) = Except.ok out)
    (ha : a ∈ findall "PubmedArticle" root) :
    ((∃ d, processArticle a = Except.ok (some d) ∧ d ∈ out) ↔
      qualifyingAuthors a ≠ []) ∧
    (∀ a0, qualifyingAuthors a = [a0] →
      ∃ d, processArticle a = Except.ok (some d) ∧ d ∈ out ∧
        classify a0 = Except.ok (some d.authors)) := by
  have hx : extract_loop [] (findall "PubmedArticle" root) = Except.ok out := by
    simpa [extract_non_academic_authors, fromstring] using h
  obtain ⟨hout, hall⟩ := extract_loop_ok _ _ _ hx
  obtain ⟨v, hv⟩ := hall a ha
  obtain ⟨mc, artEl, al, res, hmc, hart, hal, hloop, hcase⟩ := processArticle_ok a v hv
  have hqa : qualifyingAuthors a = (findall "Author" al).filter classifyHit := by
    simp only [qualifyingAuthors, hmc, hart, hal]
  rcases find_authors_loop_ok _ _ _ hloop with ⟨hfe, hres⟩ | ⟨aL, r, hlast, hcl, hres⟩
  · subst hres
    rcases hcase with ⟨-, hvnone⟩ | ⟨r, d, hrsome, -, -⟩
    · subst hvnone
      constructor
      · constructor
        · rintro ⟨d, hd, -⟩
          rw [hv] at hd
          simp at hd
        · intro hqne
          rw [hqa] at hqne
          exact absurd hfe hqne
      · intro a0 h1
        rw [hqa, hfe] at h1
        cases h1
    · cases hrsome
  · rcases hcase with ⟨hrn, -⟩ | ⟨r', d, hrsome, hvd, hda⟩
    · rw [hres] at hrn
      cases hrn
    · rw [hres] at hrsome
      injection hrsome with hrr
      subst hrr
      subst hvd
      have hdin : d ∈ out := by
        rw [hout]
        simp only [List.nil_append]
        exact List.mem_filterMap.mpr ⟨a, ha, by
          unfold articleOutput
          rw [hv]⟩
      constructor
      · constructor
        · intro _
          rw [hqa]
          intro hfe2
          rw [hfe2] at hlast
          simp at hlast
        · intro _
          exact ⟨d, hv, hdin⟩
      · intro a0 h1
        rw [hqa] at h1
        rw [h1] at hlast
        have haL : aL = a0 := by
          simp at hlast
          exact hlast.symm
        subst haL
        refine ⟨d, hv, hdin, ?_⟩
        rw [hda]
        exact hcl

/-- C2 witness at the concrete mixed root and its industry article. -/
theorem extract_retention_witness :
    ((∃ d, processArticle wArticleInd = Except.ok (some d) ∧ d ∈ [wDetailsInd]) ↔
      qualifyingAuthors wArticleInd ≠ []) ∧
    (∀ a0, qualifyingAuthors wArticleInd = [a0] →
      ∃ d, processArticle wArticleInd = Except.ok (some d) ∧ d ∈ [wDetailsInd] ∧
        classify a0 = Except.ok (some d.authors)) :=
  extract_retention wRootMixed [wDetailsInd] wArticleInd rfl
    (by
      rw [show findall "PubmedArticle" wRootMixed = [wArticleAcad, wArticleInd]
        from rfl]
      exact List.mem_cons_of_mem _ (List.mem_cons_self _ _))

/-- C10: every author record in a successful extraction output carries a
non-empty email list, so the empty-list fallback of the CSV email cell is
never taken for pipeline records. -/
theorem extract_email_cell_nonempty (p : Payload) (out : List Details)
    (h : extract_non_academic_authors p = Except.ok out) :
    ∀ d ∈ out, d.authors.email ≠ [] ∧
      csvEmailCell d.authors.email = String.intercalate ", " d.authors.email := by
  cases p with
  | malformed => simp [extract_non_academic_authors, fromstring] at h
  | wellFormed root =>
    have hx : extract_loop [] (findall "PubmedArticle" root) = Except.ok out := by
      simpa [extract_non_academic_authors, fromstring] using h
    obtain ⟨hout, -⟩ := extract_loop_ok _ _ _ hx
    intro d hd
    rw [hout] at hd
    simp only [List.nil_append] at hd
    obtain ⟨a, ha, hao⟩ := List.mem_filterMap.mp hd
    have hv : processArticle a = Except.ok (some d) := by
      unfold articleOutput at hao
      cases hp : processArticle a with
      | error e => rw [hp] at hao; cases hao
      | ok v =>
        rw [hp] at hao
        cases v with
        | none => cases hao
        | some d0 => cases hao; rfl
    obtain ⟨mc, artEl, al, res, -, -, -, hloop, hcase⟩ := processArticle_ok a _ hv
    rcases hcase with ⟨-, hvn⟩ | ⟨r, d0, hrsome, hvd, hda⟩
    · cases hvn
    · injection hvd with hdd
      subst hdd
      rcases find_authors_loop_ok _ _ _ hloop with ⟨-, hresacc⟩ | ⟨aL, r2, -, hcl, hres2⟩
      · rw [hrsome] at hresacc
        cases hresacc
      · rw [hrsome] at hres2
        injection hres2 with hrr
        subst hrr
        have hne : d.authors.email ≠ [] := by
          rw [hda]
          exact classify_email_ne_nil _ _ hcl
        exact ⟨hne, by unfold csvEmailCell; rw [if_neg hne]⟩

/-- C10 witness at the concrete mixed root and its single record. -/
theorem extract_email_cell_nonempty_witness :
    wDetailsInd.authors.email ≠ [] ∧
      csvEmailCell wDetailsInd.authors.email =
        String.intercalate ", " wDetailsInd.authors.email :=
  extract_email_cell_nonempty (Payload.wellFormed wRootMixed) [wDetailsInd] rfl
    wDetailsInd (List.mem_cons_self _ _)

/-- C5 counterexample: a well-formed payload whose first article lacks the
ArticleTitle node makes the whole call raise AttributeError, instead of
yielding a record with an empty title and processing the complete second
article. -/
theorem extract_missing_title_aborts :
    extract_non_academic_authors (Payload.wellFormed cRootNoTitle) =
      Except.error PyErr.attrError := rfl

/-- C5 amended: the absence of an optional sub-node aborts the whole call:
with all earlier nodes present, a missing ArticleTitle node raises
AttributeError, a missing AuthorList node raises AttributeError, and an
article that raises makes the article loop abort so that subsequent
sibling articles are not processed. -/
theorem processArticle_missing_node_aborts
    (a mc pmidEl dateEl yEl moEl dEl artEl : Element)
    (h1 : find "MedlineCitation" a = some mc)
    (h2 : find "PMID" mc = some pmidEl)
    (h3 : find "DateRevised" mc = some dateEl)
    (h4 : find "Year" dateEl = some yEl)
    (h5 : find "Month" dateEl = some moEl)
    (h6 : find "Day" dateEl = some dEl)
    (h7 : find "Article" mc = some artEl) :
    (find "ArticleTitle" artEl = none →
      processArticle a = Except.error PyErr.attrError) ∧
    (∀ titleEl, find "ArticleTitle" artEl = some titleEl →
      find "AuthorList" artEl = none →
      processArticle a = Except.error PyErr.attrError) ∧
    (∀ e acc rest, processArticle a = Except.error e →
      extract_loop acc (a :: rest) = Except.error e) := by
  refine ⟨?_, ?_, ?_⟩
  · intro ht
    simp only [processArticle, h1, h2, h3, h4, h5, h6, h7, ht]
  · intro titleEl ht hal
    simp only [processArticle, h1, h2, h3, h4, h5, h6, h7, ht, hal,
      find_non_academic_authors]
  · intro e acc rest hp
    simp only [extract_loop, hp]

/-- C5 witness: the concrete no-title article aborts processing. -/
theorem processArticle_missing_node_aborts_witness :
    processArticle cArticleNoTitle = Except.error PyErr.attrError :=
  (processArticle_missing_node_aborts cArticleNoTitle cMCNoTitle
    (leafEl "PMID" "9") cDateNoTitle (leafEl "Year" "2023")
    (leafEl "Month" "05") (leafEl "Day" "06") cArtNoTitleInner
    rfl rfl rfl rfl rfl rfl rfl).1 rfl

/-- C6 counterexample: a payload that decodes to a well-formed tree can
still make the call fail: a PubmedArticle node without MedlineCitation
raises AttributeError, so a decodable payload does not always return
normally. -/
theorem extract_wellformed_payload_fails :
    extract_non_academic_authors (Payload.wellFormed cRootEmptyArticle) =
      Except.error PyErr.attrError := rfl

/-- C6 amended: an undecodable payload fails with ParseError and a
decodable payload never yields ParseError, but a decodable payload either
returns normally or fails with AttributeError or TypeError raised while
walking an article. -/
theorem extract_error_taxonomy :
    extract_non_academic_authors Payload.malformed =
      Except.error PyErr.parseError ∧
    ∀ root : Element,
      (∃ out, extract_non_academic_authors (Payload.wellFormed root) =
        Except.ok out) ∨
      extract_non_academic_authors (Payload.wellFormed root) =
        Except.error PyErr.attrError ∨
      extract_non_academic_authors (Payload.wellFormed root) =
        Except.error PyErr.typeError := by
  refine ⟨rfl, ?_⟩
  intro root
  cases hx : extract_non_academic_authors (Payload.wellFormed root) with
  | ok out => exact Or.inl ⟨out, rfl⟩
  | error e =>
    have hx2 : extract_loop [] (findall "PubmedArticle" root) = Except.error e := by
      simpa [extract_non_academic_authors, fromstring] using hx
    rcases extract_loop_err _ _ _ hx2 with he | he
    · subst he
      exact Or.inr (Or.inl rfl)
    · subst he
      exact Or.inr (Or.inr rfl)

end PubMedTool
